import Mathlib

/-!
Verification of the RustGetSystemInfo program (`src/main.rs`) against its
specification.  The program is embedded shallowly: machine integers (`u64`,
`usize`) become `Nat`, the wrapping subtraction of `u64` is made explicit,
fallible I/O steps become `Except` values supplied by an environment, and the
`f64` arithmetic is modelled value-exactly: every `f64` appearing in the
program is a dyadic rational represented exactly, and every rounding step is
modelled explicitly — the `u64 as f64` conversion by `toF64` (round to 53
significant bits, ties to even, as IEEE-754 `roundTiesToEven` prescribes for
the Rust integer-to-float cast), the `f64` division and multiplication of the
percentage computation by `rnd53` (each correctly rounded to 53 significant
bits), and the `{:.k}` rendering by round-half-even at `k` decimal digits of
the exact value of the double (the Rust float formatter produces the correctly
rounded decimal digits of that exact value, ties to even).  Two simplifications
remain and are harmless here: the division of a double by `1024^i ≤ 1024^4` in
`format_bytes` is exact (it only shifts the exponent), so no `rnd53` step is
inserted there; and the unit index
`(bytes_f.log(1024.0).floor() as usize).min(4)` is taken as a function of the
integer input, `min (Nat.log 1024 bytes) 4`, which coincides with the
floating-point computation on the whole `u64` range: the floor of the
floating-point logarithm (of the converted input) differs from the exact
floor-log only at the `1024^5` and `1024^6` boundaries, where both results are
clamped to `4`.
-/

namespace RustGetSystemInfo

/-- Associativity of string concatenation, used to regroup rendered output. -/
theorem string_append_assoc (a b c : String) : a ++ b ++ c = a ++ (b ++ c) := by
  rcases a with ⟨a⟩
  rcases b with ⟨b⟩
  rcases c with ⟨c⟩
  show String.mk (a ++ b ++ c) = String.mk (a ++ (b ++ c))
  rw [List.append_assoc]

/-- The unit table of `format_bytes`:
`const UNITS: &[&str] = &["B", "KB", "MB", "GB", "TB"];`. -/
def UNITS : List String := ["B", "KB", "MB", "GB", "TB"]

/-- The unit index chosen by `format_bytes`:
`(bytes_f.log(THRESHOLD).floor() as usize).min(UNITS.len() - 1)`,
i.e. `min (floor (log_1024 bytes)) 4`, written as a comparison chain so that it
evaluates by kernel reduction.  The agreement with the floating-point
computation of the source is discussed in the file header. -/
def unitIndex (bytes : Nat) : Nat :=
  if bytes < 1024 then 0
  else if bytes < 1024 ^ 2 then 1
  else if bytes < 1024 ^ 3 then 2
  else if bytes < 1024 ^ 4 then 3
  else 4

/-- Round-half-to-even division: the nearest integer to `N / D`, ties going to
the even neighbour.  This is how the Rust `{:.k}` formatting rounds the exact
value of a float to `k` decimal digits (applied here to `N = 10^k * value`). -/
def rheDiv (N D : Nat) : Nat :=
  if 2 * (N % D) < D then N / D
  else if D < 2 * (N % D) then N / D + 1
  else if (N / D) % 2 = 0 then N / D else N / D + 1

/-- The `bytes as f64` conversion: a `u64` below `2^53` converts exactly;
otherwise it is rounded to the nearest multiple of the unit in the last place
`2^(log2 bytes - 52)`, ties to the even significand, which is IEEE-754
`roundTiesToEven` as the Rust integer-to-float cast prescribes.  The result is
the exact integer value of the double `bytes_f`. -/
def toF64 (n : Nat) : Nat :=
  if n < 2 ^ 53 then n
  else 2 ^ (n.log2 - 52) * rheDiv n (2 ^ (n.log2 - 52))

/-- The value displayed by `format_bytes` for a nonzero input, scaled by 100:
round-half-even of `100 * toF64 bytes / 1024 ^ unitIndex bytes`.  This models
`let bytes_f = bytes as f64;` (the conversion rounding captured by `toF64`),
`let value = bytes_f / THRESHOLD.powi(unit_index as i32);` (exact — dividing a
double by a power of two only shifts its exponent), and the 2-decimal
rendering `{:.2}` of the exact value of that double. -/
def scaled100 (bytes : Nat) : Nat :=
  rheDiv (100 * toF64 bytes) (1024 ^ unitIndex bytes)

/-- Renders `m / 100` with exactly two decimal digits, as `{:.2}` does for the
exact value `m / 100`. -/
def renderCenti (m : Nat) : String :=
  toString (m / 100) ++ "." ++
    (if m % 100 < 10 then "0" ++ toString (m % 100) else toString (m % 100))

/-- The numeric part of the string returned by `format_bytes`:
`"0"` for zero, the exact integer for unit index 0, and the scaled value with
two decimals otherwise. -/
def prefixStr (bytes : Nat) : String :=
  if bytes = 0 then "0"
  else if unitIndex bytes = 0 then toString bytes
  else renderCenti (scaled100 bytes)

/-- The unit suffix of the string returned by `format_bytes`:
`"B"` for zero, `UNITS[unit_index]` otherwise. -/
def unitSuffix (bytes : Nat) : String :=
  if bytes = 0 then "B" else UNITS.getD (unitIndex bytes) "B"

/-- Function `format_bytes` of `src/main.rs` (`fn format_bytes(bytes: u64) -> String`):
`"0 B"` for zero; `"{bytes} B"` below 1024; otherwise the scaled value with two
decimals and the chosen unit suffix. -/
def format_bytes (bytes : Nat) : String :=
  prefixStr bytes ++ " " ++ unitSuffix bytes

/-- The value displayed by `format_bytes`, scaled by 100 so that both the
integer rendering (unit index 0, displaying `bytes` itself) and the 2-decimal
rendering (displaying `scaled100 bytes / 100`) live on a common scale. -/
def numericPrefix100 (bytes : Nat) : Nat :=
  if bytes = 0 then 0
  else if unitIndex bytes = 0 then 100 * bytes
  else scaled100 bytes

/-- C2: `format_bytes` returns exactly the anchor values of the specification
(and of the doc comment of the source): `0 ↦ "0 B"`, `1024 ↦ "1.00 KB"`,
`1536 ↦ "1.50 KB"`, `1073741824 ↦ "1.00 GB"`. -/
theorem format_bytes_anchors :
    format_bytes 0 = "0 B" ∧ format_bytes 1024 = "1.00 KB" ∧
    format_bytes 1536 = "1.50 KB" ∧ format_bytes 1073741824 = "1.00 GB" := by
  refine ⟨rfl, ?_, ?_, ?_⟩ <;> decide

/-- C3: for `0 < n < 1024`, `format_bytes n` is the exact decimal integer `n`
followed by `" B"` (`format!("{} {}", bytes, UNITS[0])`), with no decimal
point and no fractional digits. -/
theorem format_bytes_small (n : Nat) (h0 : 0 < n) (h : n < 1024) :
    format_bytes n = toString n ++ " B" := by
  have hn : n ≠ 0 := Nat.pos_iff_ne_zero.mp h0
  have hu : unitIndex n = 0 := by simp [unitIndex, h]
  simp only [format_bytes, prefixStr, unitSuffix, hn, hu, UNITS, if_neg hn, if_pos rfl,
    List.getD]
  rw [string_append_assoc]
  rfl

/-- Witness for C3 at `n = 5`. -/
theorem format_bytes_small_witness :
    0 < 5 ∧ 5 < 1024 ∧ format_bytes 5 = toString 5 ++ " B" :=
  ⟨by decide, by decide, format_bytes_small 5 (by decide) (by decide)⟩

theorem unitIndex_le_four (n : Nat) : unitIndex n ≤ 4 := by
  unfold unitIndex
  split_ifs <;> omega

/-- The entries of `UNITS` read through `getD` are pairwise distinct on the
index range actually used. -/
theorem units_getD_inj : ∀ i < 5, ∀ j < 5, UNITS.getD i "B" = UNITS.getD j "B" → i = j := by
  decide

theorem unitSuffix_inj {a b : Nat} (ha : a ≠ 0) (hb : b ≠ 0)
    (h : unitSuffix a = unitSuffix b) : unitIndex a = unitIndex b := by
  have h4a := unitIndex_le_four a
  have h4b := unitIndex_le_four b
  unfold unitSuffix at h
  rw [if_neg ha, if_neg hb] at h
  exact units_getD_inj _ (by omega) _ (by omega) h

theorem rheDiv_le (N D : Nat) : rheDiv N D ≤ N / D + 1 := by
  unfold rheDiv
  generalize N / D = q
  generalize N % D = r
  split_ifs <;> omega

theorem le_rheDiv (N D : Nat) : N / D ≤ rheDiv N D := by
  unfold rheDiv
  generalize N / D = q
  generalize N % D = r
  split_ifs <;> omega

/-- Round-half-even division is monotone in the dividend. -/
theorem rheDiv_mono {N1 N2 : Nat} (D : Nat) (h : N1 ≤ N2) :
    rheDiv N1 D ≤ rheDiv N2 D := by
  rcases Nat.lt_or_ge (N1 / D) (N2 / D) with hlt | hge
  · calc rheDiv N1 D ≤ N1 / D + 1 := rheDiv_le N1 D
      _ ≤ N2 / D := hlt
      _ ≤ rheDiv N2 D := le_rheDiv N2 D
  · have hq : N1 / D = N2 / D := Nat.le_antisymm (Nat.div_le_div_right h) hge
    rcases Nat.eq_zero_or_pos D with hD | hD
    · subst hD
      simp only [rheDiv, Nat.div_zero, Nat.mod_zero]
      split_ifs <;> omega
    · have hr : N1 % D ≤ N2 % D := by
        have e1 := Nat.div_add_mod N1 D
        have e2 := Nat.div_add_mod N2 D
        rw [hq] at e1
        set X := D * (N2 / D) with hX
        omega
      unfold rheDiv
      rw [hq]
      set q := N2 / D with hqd
      set r1 := N1 % D with hr1
      set r2 := N2 % D with hr2
      split_ifs <;> omega

/-- C4: for every nonzero byte count, the unit index chosen by `format_bytes`
is `floor (log_1024 n)` clamped to the top of the table (`min (Nat.log 1024 n)
4`), and for every `n ≥ 1024^4` the returned string carries the suffix
`" TB"`. -/
theorem unitIndex_eq_log_clamped (n : Nat) (h0 : 0 < n) :
    unitIndex n = min (Nat.log 1024 n) 4 ∧
      (1024 ^ 4 ≤ n → format_bytes n = prefixStr n ++ " TB") := by
  have hn : n ≠ 0 := Nat.pos_iff_ne_zero.mp h0
  constructor
  · unfold unitIndex
    split_ifs with h1 h2 h3 h4
    · rw [Nat.log_eq_zero_iff.mpr (Or.inl h1)]
      decide
    · rw [Nat.log_eq_of_pow_le_of_lt_pow (by simpa using Nat.le_of_not_lt h1) h2]
      decide
    · rw [Nat.log_eq_of_pow_le_of_lt_pow (Nat.le_of_not_lt h2) h3]
      decide
    · rw [Nat.log_eq_of_pow_le_of_lt_pow (Nat.le_of_not_lt h3) h4]
      decide
    · have hl : 4 ≤ Nat.log 1024 n :=
        (Nat.pow_le_iff_le_log (by norm_num) hn).mp (Nat.le_of_not_lt h4)
      omega
  · intro h
    have hu : unitIndex n = 4 := by
      unfold unitIndex
      norm_num at h
      split_ifs with h1 h2 h3 h4 <;> norm_num at * <;> omega
    unfold format_bytes unitSuffix
    rw [if_neg hn, hu]
    rw [string_append_assoc]
    rfl

/-- Witness for C4 at `n = 1024^4`. -/
theorem unitIndex_eq_log_clamped_witness :
    unitIndex 1099511627776 = min (Nat.log 1024 1099511627776) 4 ∧
      format_bytes 1099511627776 = prefixStr 1099511627776 ++ " TB" :=
  ⟨(unitIndex_eq_log_clamped 1099511627776 (by decide)).1,
   (unitIndex_eq_log_clamped 1099511627776 (by decide)).2 (by norm_num)⟩

theorem log2_mono {a b : Nat} (h : a ≤ b) : a.log2 ≤ b.log2 := by
  rcases Nat.eq_zero_or_pos a with ha | ha
  · subst ha
    simp [Nat.log2_zero]
  · have ha0 : a ≠ 0 := Nat.pos_iff_ne_zero.mp ha
    have hb0 : b ≠ 0 := by omega
    exact (Nat.le_log2 hb0).mpr (le_trans (Nat.log2_self_le ha0) h)

theorem toF64_lb {n : Nat} (h : 2 ^ 53 ≤ n) : 2 ^ n.log2 ≤ toF64 n := by
  have hn0 : n ≠ 0 := by positivity
  have hnlt : ¬ n < 2 ^ 53 := not_lt.mpr h
  have hL : 53 ≤ n.log2 := (Nat.le_log2 hn0).mpr h
  have h2 : 2 ^ 52 ≤ n / 2 ^ (n.log2 - 52) := by
    rw [Nat.le_div_iff_mul_le (by positivity)]
    calc 2 ^ 52 * 2 ^ (n.log2 - 52) = 2 ^ n.log2 := by
          rw [← pow_add]
          congr 1
          omega
      _ ≤ n := Nat.log2_self_le hn0
  unfold toF64
  rw [if_neg hnlt]
  calc 2 ^ n.log2 = 2 ^ (n.log2 - 52) * 2 ^ 52 := by
        rw [← pow_add]
        congr 1
        omega
    _ ≤ 2 ^ (n.log2 - 52) * (n / 2 ^ (n.log2 - 52)) := mul_le_mul_left' h2 _
    _ ≤ 2 ^ (n.log2 - 52) * rheDiv n (2 ^ (n.log2 - 52)) :=
        mul_le_mul_left' (le_rheDiv _ _) _

theorem toF64_ub {n : Nat} (h : 2 ^ 53 ≤ n) : toF64 n ≤ 2 ^ (n.log2 + 1) := by
  have hn0 : n ≠ 0 := by positivity
  have hnlt : ¬ n < 2 ^ 53 := not_lt.mpr h
  have hL : 53 ≤ n.log2 := (Nat.le_log2 hn0).mpr h
  have hdiv : n / 2 ^ (n.log2 - 52) < 2 ^ 53 := by
    rw [Nat.div_lt_iff_lt_mul (by positivity)]
    calc n < 2 ^ (n.log2 + 1) := Nat.lt_log2_self
      _ = 2 ^ 53 * 2 ^ (n.log2 - 52) := by
          rw [← pow_add]
          congr 1
          omega
  have hrd : rheDiv n (2 ^ (n.log2 - 52)) ≤ 2 ^ 53 := by
    calc rheDiv n (2 ^ (n.log2 - 52)) ≤ n / 2 ^ (n.log2 - 52) + 1 := rheDiv_le _ _
      _ ≤ 2 ^ 53 := by omega
  unfold toF64
  rw [if_neg hnlt]
  calc 2 ^ (n.log2 - 52) * rheDiv n (2 ^ (n.log2 - 52))
      ≤ 2 ^ (n.log2 - 52) * 2 ^ 53 := mul_le_mul_left' hrd _
    _ = 2 ^ (n.log2 + 1) := by
        rw [← pow_add]
        congr 1
        omega

/-- The modelled `u64 as f64` conversion is monotone, as round-to-nearest
must be. -/
theorem toF64_mono {a b : Nat} (h : a ≤ b) : toF64 a ≤ toF64 b := by
  by_cases hb : b < 2 ^ 53
  · have ha : a < 2 ^ 53 := lt_of_le_of_lt h hb
    unfold toF64
    rw [if_pos ha, if_pos hb]
    exact h
  · push_neg at hb
    have hb0 : b ≠ 0 := by positivity
    by_cases ha : a < 2 ^ 53
    · have h53 : 53 ≤ b.log2 := (Nat.le_log2 hb0).mpr hb
      calc toF64 a = a := by
            unfold toF64
            rw [if_pos ha]
        _ ≤ 2 ^ 53 := le_of_lt ha
        _ ≤ 2 ^ b.log2 := Nat.pow_le_pow_right (by norm_num) h53
        _ ≤ toF64 b := toF64_lb hb
    · push_neg at ha
      rcases Nat.lt_or_ge a.log2 b.log2 with hlt | hge
      · calc toF64 a ≤ 2 ^ (a.log2 + 1) := toF64_ub ha
          _ ≤ 2 ^ b.log2 := Nat.pow_le_pow_right (by norm_num) (by omega)
          _ ≤ toF64 b := toF64_lb hb
      · have heq : a.log2 = b.log2 := le_antisymm (log2_mono h) hge
        unfold toF64
        rw [if_neg (not_lt.mpr ha), if_neg (not_lt.mpr hb), heq]
        exact mul_le_mul_left' (rheDiv_mono _ h) _

/-- C5: if `a < b` and `format_bytes` maps both to the same unit suffix, the
displayed numeric value of `a` is at most that of `b` (both measured on the
common `×100` scale of `numericPrefix100`): the conversion to `f64` and the
round-half-even rendering are both monotone. -/
theorem numericPrefix_mono (a b : Nat) (hab : a < b) (hs : unitSuffix a = unitSuffix b) :
    numericPrefix100 a ≤ numericPrefix100 b := by
  rcases Nat.eq_zero_or_pos a with ha | ha
  · subst ha
    simp [numericPrefix100]
  · have ha' : a ≠ 0 := by omega
    have hb : b ≠ 0 := by omega
    have hij : unitIndex a = unitIndex b := unitSuffix_inj ha' hb hs
    unfold numericPrefix100
    rw [if_neg ha', if_neg hb, hij]
    by_cases h0 : unitIndex b = 0
    · rw [if_pos h0, if_pos h0]
      omega
    · rw [if_neg h0, if_neg h0]
      unfold scaled100
      rw [hij]
      exact rheDiv_mono _ (mul_le_mul_left' (toF64_mono (le_of_lt hab)) 100)

/-- Witness for C5 at `a = 1024`, `b = 2048` (both "KB"). -/
theorem numericPrefix_mono_witness :
    1024 < 2048 ∧ unitSuffix 1024 = unitSuffix 2048 ∧
      numericPrefix100 1024 ≤ numericPrefix100 2048 :=
  ⟨by decide, by decide, numericPrefix_mono 1024 2048 (by decide) (by decide)⟩

/-- Struct `DiskInfo` of `src/main.rs` (fields in declaration order). -/
structure DiskInfo where
  name : String
  file_system : String
  total_space : Nat
  available_space : Nat
  deriving DecidableEq

/-- Struct `NetworkInfo` of `src/main.rs` (fields in declaration order). -/
structure NetworkInfo where
  name : String
  bytes_received : Nat
  bytes_transmitted : Nat
  packets_received : Nat
  packets_transmitted : Nat
  deriving DecidableEq

/-- Struct `SystemInfo` of `src/main.rs` (fields in declaration order). -/
structure SystemInfo where
  os_name : String
  os_version : String
  cpu_cores : Nat
  total_memory : Nat
  used_memory : Nat
  total_swap : Nat
  used_swap : Nat
  disks : List DiskInfo
  networks : List NetworkInfo
  deriving DecidableEq

/-- The accessors of the external `sysinfo` collaborator (§6 of the
specification): optional OS name/version and physical core count, byte and
packet counters, and the per-disk and per-network tuples read in `run`
(mount point, file system, total space, available space; interface name,
received/transmitted bytes and packets). -/
structure Collab where
  name : Option String
  os_version : Option String
  physical_core_count : Option Nat
  total_memory : Nat
  used_memory : Nat
  total_swap : Nat
  used_swap : Nat
  disks : List (String × String × Nat × Nat)
  networks : List (String × Nat × Nat × Nat × Nat)

/-- The snapshot construction of `run` (lines 159–189 of `src/main.rs`):
disks and networks are mapped field by field, `name()`/`os_version()` fall
back to `"N/A"` via `unwrap_or_else`, `physical_core_count()` falls back to
`0` via `unwrap_or`, and the four memory counters are passed through. -/
def collectInfo (sys : Collab) : SystemInfo where
  os_name := sys.name.getD "N/A"
  os_version := sys.os_version.getD "N/A"
  cpu_cores := sys.physical_core_count.getD 0
  total_memory := sys.total_memory
  used_memory := sys.used_memory
  total_swap := sys.total_swap
  used_swap := sys.used_swap
  disks := sys.disks.map fun x => ⟨x.1, x.2.1, x.2.2.1, x.2.2.2⟩
  networks := sys.networks.map fun x => ⟨x.1, x.2.1, x.2.2.1, x.2.2.2.1, x.2.2.2.2⟩

/-- Wrapping subtraction of `u64`, the semantics of
`disk.total_space - disk.available_space` in release builds (for operands
below `2^64`). -/
def wrappingSub (a b : Nat) : Nat := (2 ^ 64 + a - b) % 2 ^ 64

/-- Whether the `u64` subtraction `a - b` underflows. -/
def subUnderflows (a b : Nat) : Bool := decide (a < b)

/-- Renders `m / 10` with exactly one decimal digit, as `{:.1}` does for the
exact value `m / 10`. -/
def renderDeci (m : Nat) : String :=
  toString (m / 10) ++ "." ++ toString (m % 10)

/-- Rounding of an exact rational value to the nearest integer with ties to
even, the mathematical content of rendering a value "to k decimal places"
(applied to `10^k` times the value), and the significand rounding of the
IEEE-754 `roundTiesToEven` operations modelled by `rnd53`. -/
def rhe (q : ℚ) : ℤ :=
  if Int.fract q < 1 / 2 then ⌊q⌋
  else if 1 / 2 < Int.fract q then ⌊q⌋ + 1
  else if ⌊q⌋ % 2 = 0 then ⌊q⌋ else ⌊q⌋ + 1

/-- Fuel-driven floor of the base-2 logarithm, written structurally so that
it evaluates by kernel reduction; `nlog2` supplies enough fuel and
`nlog2_eq_log2` identifies it with `Nat.log2`. -/
def log2p : Nat → Nat → Nat
  | 0, _ => 0
  | fuel + 1, n => if n ≤ 1 then 0 else log2p fuel (n / 2) + 1

/-- Floor of the base-2 logarithm of a natural number (0 for 0). -/
def nlog2 (n : Nat) : Nat := log2p n n

/-- The candidate floor for the base-2 logarithm of `a / b`: it is exact or
one too large. -/
def fracLog2Cand (a b : Nat) : ℤ := (nlog2 a : ℤ) - (nlog2 b : ℤ)

/-- Floor of the base-2 logarithm of the positive fraction `a / b`: comparing
`2 ^ fracLog2Cand a b` with `a / b` (cleared of denominators) corrects the
candidate when needed (`fracLog2_spec` proves the characterising bounds). -/
def fracLog2 (a b : Nat) : ℤ :=
  if 2 ^ (fracLog2Cand a b).toNat * b ≤ 2 ^ (-fracLog2Cand a b).toNat * a
  then fracLog2Cand a b else fracLog2Cand a b - 1

/-- Floor of the base-2 logarithm of a positive rational. -/
def floorLog2 (q : ℚ) : ℤ := fracLog2 q.num.natAbs q.den

/-- Correct rounding of an exact nonnegative rational to an `f64` value
(round to nearest, 53 significant bits, ties to even): the significand
`q / 2 ^ (floorLog2 q - 52)` lies in `[2^52, 2^53]` and is rounded half-even
to an integer.  This is the IEEE-754 `roundTiesToEven` result for every
operand arising in this program (all values are far from overflow and from
the subnormal range). -/
def rnd53 (q : ℚ) : ℚ :=
  if q ≤ 0 then 0
  else ((rhe (q * 2 ^ (52 - floorLog2 q)) : ℚ)) * 2 ^ (floorLog2 q - 52)

/-- The exact value of the `f64` usage percentage computed by `run` for a
positive total: `(used_space as f64 / disk.total_space as f64) * 100.0`, with
the two integer-to-float conversions (`toF64`), the division and the
multiplication (`rnd53` each) rounded exactly as IEEE-754 prescribes. -/
def pctF64 (total available : Nat) : ℚ :=
  rnd53 (rnd53 ((toF64 (wrappingSub total available) : ℚ) / (toF64 total : ℚ)) * 100)

/-- Integer-arithmetic implementation of `rnd53` on the fraction `a / b`:
returns the pair `(m, e)` with `m * 2 ^ (e - 52)` the rounded value
(`rnd53Frac_val`); written over `Nat` so that it evaluates by kernel
reduction. -/
def rnd53Frac (a b : Nat) : Nat × ℤ :=
  let e := fracLog2 a b
  (rheDiv (2 ^ (52 - e).toNat * a) (2 ^ (e - 52).toNat * b), e)

/-- The dyadic value `m * 2 ^ (e - 52)` as a fraction of naturals. -/
def dyadicFrac (m : Nat) (e : ℤ) : Nat × Nat :=
  (2 ^ (e - 52).toNat * m, 2 ^ (52 - e).toNat)

/-- Integer-arithmetic implementation of the `f64` percentage `pctF64`
(`usagePercentDeci_eq` proves the agreement): the double `u / t` as a
significand-exponent pair, then the double `(u / t) * 100`. -/
def pctF64Frac (u t : Nat) : Nat × ℤ :=
  let p1 := rnd53Frac u t
  let f1 := dyadicFrac p1.1 p1.2
  rnd53Frac (100 * f1.1) f1.2

/-- The disk usage percentage of `run` on the `×10` scale of its 1-decimal
rendering `{:.1}`: round-half-even of ten times the exact value of the double
`(used as f64 / total as f64) * 100.0` when `disk.total_space > 0`, else `0`
(the guard makes the percentage `0.0` without looking at `available_space`),
where `used_space = disk.total_space - disk.available_space` (wrapping).
Computed over `Nat`; `usagePercentDeci_eq` identifies it with the rational
model `pctF64`. -/
def usagePercentDeci (total available : Nat) : Nat :=
  if 0 < total then
    let p := pctF64Frac (toF64 (wrappingSub total available)) (toF64 total)
    let f := dyadicFrac p.1 p.2
    rheDiv (10 * f.1) f.2
  else 0

/-- The console line printed by `run` for one disk:
`"  {}: {} / {} ({:.1}% used, {} available) [{}]"`. -/
def diskLine (d : DiskInfo) : String :=
  "  " ++ d.name ++ ": " ++ format_bytes (wrappingSub d.total_space d.available_space)
    ++ " / " ++ format_bytes d.total_space ++ " ("
    ++ renderDeci (usagePercentDeci d.total_space d.available_space)
    ++ "% used, " ++ format_bytes d.available_space ++ " available) ["
    ++ d.file_system ++ "]"

/-- The three console lines printed by `run` for one network interface. -/
def networkLines (n : NetworkInfo) : List String :=
  ["  " ++ n.name ++ ":",
   "    Received: " ++ format_bytes n.bytes_received ++ " ("
     ++ toString n.packets_received ++ " packets)",
   "    Transmitted: " ++ format_bytes n.bytes_transmitted ++ " ("
     ++ toString n.packets_transmitted ++ " packets)"]

/-- The human-readable console report of `run` (lines 191–237 of
`src/main.rs`), in print order.  `println!("\nDisk Usage:")` contributes an
empty line followed by its text, and likewise for the network header. -/
def consoleReport (info : SystemInfo) : List String :=
  ["System Information:",
   "  OS Name: " ++ info.os_name,
   "  OS Version: " ++ info.os_version,
   "  CPU Cores: " ++ toString info.cpu_cores,
   "  Total Memory: " ++ format_bytes info.total_memory,
   "  Used Memory: " ++ format_bytes info.used_memory,
   "  Total Swap: " ++ format_bytes info.total_swap,
   "  Used Swap: " ++ format_bytes info.used_swap,
   "", "Disk Usage:"]
  ++ (if info.disks.isEmpty then ["  No disks detected"] else info.disks.map diskLine)
  ++ ["", "Network Interfaces:"]
  ++ (if info.networks.isEmpty then ["  No network interfaces detected"]
      else (info.networks.map networkLines).flatten)

/-- Enum `AppError` of `src/main.rs`; each variant carries the display text of
the underlying error. -/
inductive AppError where
  | FileCreation (e : String)
  | FileWrite (e : String)
  | JsonSerialization (e : String)
  deriving DecidableEq

/-- Display instance of `AppError` (`impl fmt::Display for AppError`). -/
def AppError.display : AppError → String
  | .FileCreation e => "Failed to create file: " ++ e
  | .FileWrite e => "Failed to write to file: " ++ e
  | .JsonSerialization e => "Failed to serialize data to JSON: " ++ e

/-- An observable side effect of the program. -/
inductive Effect where
  | stdoutLine (s : String)
  | stderrLine (s : String)
  | fileCreate (path : String)
  | fileWriteAll
  deriving DecidableEq

/-- Outcomes of the three fallible steps of `run`, supplied by the
environment: `serde_json::to_string_pretty`, `File::create`, and
`write_all`.  Each error carries the display text of the underlying error. -/
structure Env where
  serializeResult : Except String String
  createResult : Except String Unit
  writeResult : Except String Unit

/-- Function `run` of `src/main.rs` (`fn run() -> Result<(), AppError>`), as a trace of
effects plus a result: the whole console report is printed, then
serialization, file creation and the file write are attempted in that order,
each failure being wrapped in the corresponding `AppError` variant; on
success a confirmation line is printed. -/
def run (sys : Collab) (env : Env) : List Effect × Except AppError Unit :=
  let report := (consoleReport (collectInfo sys)).map Effect.stdoutLine
  match env.serializeResult with
  | .error e => (report, .error (.JsonSerialization e))
  | .ok _ =>
    match env.createResult with
    | .error e => (report ++ [Effect.fileCreate "system_info.json"],
                   .error (.FileCreation e))
    | .ok _ =>
      match env.writeResult with
      | .error e => (report ++ [Effect.fileCreate "system_info.json", Effect.fileWriteAll],
                     .error (.FileWrite e))
      | .ok _ => (report ++ [Effect.fileCreate "system_info.json", Effect.fileWriteAll,
                    Effect.stdoutLine "System information saved to system_info.json"],
                  .ok ())

/-- Entry point `main` of `src/main.rs`: on an error from `run`, print
`"Error: {e}"` to standard error and exit with code 1; otherwise exit with
code 0.  Returns the effect trace and the exit code. -/
def main (sys : Collab) (env : Env) : List Effect × Nat :=
  match run sys env with
  | (tr, .ok _) => (tr, 0)
  | (tr, .error e) => (tr ++ [Effect.stderrLine ("Error: " ++ e.display)], 1)

/-- The standard-error lines of a trace, in order. -/
def stderrLines (tr : List Effect) : List String :=
  tr.filterMap fun e => match e with
    | .stderrLine s => some s
    | _ => none

/-- The JSON documents produced by `serde_json` for this data model. -/
inductive Json where
  | str (s : String)
  | num (n : Nat)
  | arr (elems : List Json)
  | obj (fields : List (String × Json))

/-- Key lookup in a serialized object, first match wins. -/
def findField : List (String × Json) → String → Option Json
  | [], _ => none
  | (k, v) :: rest, key => if k == key then some v else findField rest key

def Json.getField : Json → String → Option Json
  | .obj fields, key => findField fields key
  | _, _ => none

/-- Serialization of `DiskInfo` (derived `Serialize`): an object with the
fields of the struct in declaration order, numeric fields kept as raw
numbers. -/
def diskToJson (d : DiskInfo) : Json :=
  .obj [("name", .str d.name), ("file_system", .str d.file_system),
        ("total_space", .num d.total_space), ("available_space", .num d.available_space)]

/-- Serialization of `NetworkInfo` (derived `Serialize`). -/
def networkToJson (n : NetworkInfo) : Json :=
  .obj [("name", .str n.name), ("bytes_received", .num n.bytes_received),
        ("bytes_transmitted", .num n.bytes_transmitted),
        ("packets_received", .num n.packets_received),
        ("packets_transmitted", .num n.packets_transmitted)]

/-- Serialization of `SystemInfo` (derived `Serialize`): the document written to
`system_info.json`, holding the raw (unformatted) field values. -/
def systemInfoToJson (info : SystemInfo) : Json :=
  .obj [("os_name", .str info.os_name), ("os_version", .str info.os_version),
        ("cpu_cores", .num info.cpu_cores), ("total_memory", .num info.total_memory),
        ("used_memory", .num info.used_memory), ("total_swap", .num info.total_swap),
        ("used_swap", .num info.used_swap),
        ("disks", .arr (info.disks.map diskToJson)),
        ("networks", .arr (info.networks.map networkToJson))]

/-- Decodes every element of a serialized array, failing if any element
fails. -/
def decodeList (dec : Json → Option α) : List Json → Option (List α)
  | [] => some []
  | j :: rest =>
    match dec j, decodeList dec rest with
    | some x, some xs => some (x :: xs)
    | _, _ => none

/-- Deserialization of one disk record from JSON. -/
def decodeDisk (j : Json) : Option DiskInfo :=
  match j.getField "name", j.getField "file_system",
        j.getField "total_space", j.getField "available_space" with
  | some (.str n), some (.str fs), some (.num t), some (.num a) => some ⟨n, fs, t, a⟩
  | _, _, _, _ => none

/-- Deserialization of one network record from JSON. -/
def decodeNetwork (j : Json) : Option NetworkInfo :=
  match j.getField "name", j.getField "bytes_received", j.getField "bytes_transmitted",
        j.getField "packets_received", j.getField "packets_transmitted" with
  | some (.str n), some (.num br), some (.num bt), some (.num pr), some (.num pt) =>
    some ⟨n, br, bt, pr, pt⟩
  | _, _, _, _, _ => none

/-- Deserialization of a `SystemInfo` snapshot from JSON. -/
def decodeSystemInfo (j : Json) : Option SystemInfo :=
  match j.getField "os_name", j.getField "os_version", j.getField "cpu_cores",
        j.getField "total_memory", j.getField "used_memory", j.getField "total_swap",
        j.getField "used_swap", j.getField "disks", j.getField "networks" with
  | some (.str osn), some (.str osv), some (.num cc), some (.num tm), some (.num um),
      some (.num ts), some (.num us), some (.arr ds), some (.arr ns) =>
    match decodeList decodeDisk ds, decodeList decodeNetwork ns with
    | some dl, some nl => some ⟨osn, osv, cc, tm, um, ts, us, dl, nl⟩
    | _, _ => none
  | _, _, _, _, _, _, _, _, _ => none

/-- The integer-arithmetic rounding `rheDiv` agrees with round-half-even of
the exact rational `N / D`. -/
theorem rheDiv_eq_rhe (N D : ℕ) (hD : 0 < D) :
    (rheDiv N D : ℤ) = rhe ((N : ℚ) / (D : ℚ)) := by
  have hD' : (0 : ℚ) < (D : ℚ) := by exact_mod_cast hD
  have hmod : (N : ℚ) = (D : ℚ) * ((N / D : ℕ) : ℚ) + ((N % D : ℕ) : ℚ) := by
    exact_mod_cast (Nat.div_add_mod N D).symm
  have hsplit : (N : ℚ) / (D : ℚ) = ((N / D : ℕ) : ℚ) + ((N % D : ℕ) : ℚ) / (D : ℚ) := by
    rw [hmod]
    field_simp
    ring
  have hrD : (N % D : ℕ) < D := Nat.mod_lt N hD
  have hr0 : (0 : ℚ) ≤ ((N % D : ℕ) : ℚ) / (D : ℚ) := by positivity
  have hr1 : ((N % D : ℕ) : ℚ) / (D : ℚ) < 1 := by
    rw [div_lt_one hD']
    exact_mod_cast hrD
  have hfl : ⌊(N : ℚ) / (D : ℚ)⌋ = ((N / D : ℕ) : ℤ) := by
    rw [hsplit, Int.floor_nat_add, Int.floor_eq_zero_iff.mpr ⟨hr0, hr1⟩, add_zero]
  have hfr : Int.fract ((N : ℚ) / (D : ℚ)) = ((N % D : ℕ) : ℚ) / (D : ℚ) := by
    simp only [Int.fract]
    rw [hfl, hsplit]
    simp only [Int.cast_natCast]
    ring
  have k1 : ((N % D : ℕ) : ℚ) / (D : ℚ) < 1 / 2 ↔ 2 * (N % D) < D := by
    rw [div_lt_iff₀ hD']
    constructor
    · intro h
      have h2 : ((2 * (N % D) : ℕ) : ℚ) < ((D : ℕ) : ℚ) := by
        push_cast
        linarith
      exact_mod_cast h2
    · intro h
      have h2 : ((2 * (N % D) : ℕ) : ℚ) < ((D : ℕ) : ℚ) := by exact_mod_cast h
      push_cast at h2
      linarith
  have k2 : (1 : ℚ) / 2 < ((N % D : ℕ) : ℚ) / (D : ℚ) ↔ D < 2 * (N % D) := by
    rw [lt_div_iff₀ hD']
    constructor
    · intro h
      have h2 : ((D : ℕ) : ℚ) < ((2 * (N % D) : ℕ) : ℚ) := by
        push_cast
        linarith
      exact_mod_cast h2
    · intro h
      have h2 : ((D : ℕ) : ℚ) < ((2 * (N % D) : ℕ) : ℚ) := by exact_mod_cast h
      push_cast at h2
      linarith
  unfold rheDiv rhe
  rw [hfl, hfr]
  by_cases h1 : 2 * (N % D) < D
  · rw [if_pos h1, if_pos (k1.mpr h1)]
  · rw [if_neg h1, if_neg (fun hq => h1 (k1.mp hq))]
    by_cases h2 : D < 2 * (N % D)
    · rw [if_pos h2, if_pos (k2.mpr h2)]
      push_cast
      ring
    · rw [if_neg h2, if_neg (fun hq => h2 (k2.mp hq))]
      by_cases h3 : N / D % 2 = 0
      · rw [if_pos h3, if_pos (by exact_mod_cast h3)]
      · rw [if_neg h3, if_neg (fun hq => h3 (by exact_mod_cast hq))]
        push_cast
        ring

theorem rheDiv_zero (D : Nat) : rheDiv 0 D = 0 := by
  unfold rheDiv
  simp

theorem log2p_spec : ∀ (fuel n : Nat), 1 ≤ n → n ≤ fuel →
    2 ^ log2p fuel n ≤ n ∧ n < 2 ^ (log2p fuel n + 1) := by
  intro fuel
  induction fuel with
  | zero =>
    intro n h1 h2
    omega
  | succ fuel ih =>
    intro n h1 h2
    by_cases hn : n ≤ 1
    · have hn1 : n = 1 := by omega
      subst hn1
      refine ⟨?_, ?_⟩ <;> simp [log2p]
    · push_neg at hn
      have hrec := ih (n / 2) (by omega) (by omega)
      simp only [log2p, if_neg (by omega : ¬ n ≤ 1)]
      obtain ⟨hl, hu⟩ := hrec
      constructor
      · calc 2 ^ (log2p fuel (n / 2) + 1) = 2 * 2 ^ log2p fuel (n / 2) := by ring
          _ ≤ 2 * (n / 2) := by omega
          _ ≤ n := by omega
      · calc n < 2 * (n / 2) + 2 := by omega
          _ ≤ 2 * 2 ^ (log2p fuel (n / 2) + 1) := by omega
          _ = 2 ^ (log2p fuel (n / 2) + 1 + 1) := by ring

theorem nlog2_spec {n : Nat} (h : 1 ≤ n) :
    2 ^ nlog2 n ≤ n ∧ n < 2 ^ (nlog2 n + 1) :=
  log2p_spec n n h le_rfl

/-- Splitting an integer power of two into a quotient of natural powers. -/
theorem zpow2_split (z : ℤ) :
    (2 : ℚ) ^ z = (2 : ℚ) ^ z.toNat / (2 : ℚ) ^ (-z).toNat := by
  rcases Int.le_or_lt 0 z with h | h
  · have h1 : (z.toNat : ℤ) = z := Int.toNat_of_nonneg h
    have h2 : (-z).toNat = 0 := by omega
    rw [h2, pow_zero, div_one, ← zpow_natCast (2 : ℚ) z.toNat, h1]
  · have h1 : ((-z).toNat : ℤ) = -z := Int.toNat_of_nonneg (by omega)
    have h2 : z.toNat = 0 := by omega
    rw [h2, pow_zero]
    rw [eq_div_iff (by positivity)]
    rw [← zpow_natCast (2 : ℚ) (-z).toNat, h1, ← zpow_add₀ (by norm_num : (2 : ℚ) ≠ 0)]
    simp

/-- The characterising bounds of `fracLog2`: it is the floor of the base-2
logarithm of `a / b`. -/
theorem fracLog2_spec (a b : Nat) (ha : 1 ≤ a) (hb : 1 ≤ b) :
    (2 : ℚ) ^ fracLog2 a b ≤ (a : ℚ) / (b : ℚ) ∧
      (a : ℚ) / (b : ℚ) < 2 ^ (fracLog2 a b + 1) := by
  have hb0 : (0 : ℚ) < (b : ℚ) := by exact_mod_cast hb
  obtain ⟨hal, hau⟩ := nlog2_spec ha
  obtain ⟨hbl, hbu⟩ := nlog2_spec hb
  have halq : (2 : ℚ) ^ nlog2 a ≤ (a : ℚ) := by exact_mod_cast hal
  have hauq : (a : ℚ) < 2 ^ (nlog2 a + 1) := by exact_mod_cast hau
  have hblq : (2 : ℚ) ^ nlog2 b ≤ (b : ℚ) := by exact_mod_cast hbl
  have hbuq : (b : ℚ) < 2 ^ (nlog2 b + 1) := by exact_mod_cast hbu
  have hzsub : ∀ (x y : ℕ), (2 : ℚ) ^ ((x : ℤ) - (y : ℤ)) = 2 ^ x / 2 ^ y := by
    intro x y
    rw [zpow_sub₀ (by norm_num : (2 : ℚ) ≠ 0), zpow_natCast, zpow_natCast]
  have hupper : (a : ℚ) / b < 2 ^ (fracLog2Cand a b + 1) := by
    have he : fracLog2Cand a b + 1 = ((nlog2 a + 1 : ℕ) : ℤ) - ((nlog2 b : ℕ) : ℤ) := by
      unfold fracLog2Cand
      push_cast
      ring
    rw [he, hzsub]
    rw [div_lt_div_iff₀ hb0 (by positivity)]
    calc (a : ℚ) * 2 ^ nlog2 b < 2 ^ (nlog2 a + 1) * 2 ^ nlog2 b :=
          mul_lt_mul_of_pos_right hauq (by positivity)
      _ ≤ 2 ^ (nlog2 a + 1) * b := mul_le_mul_of_nonneg_left hblq (by positivity)
  have hlower : (2 : ℚ) ^ (fracLog2Cand a b - 1) ≤ (a : ℚ) / b := by
    have he : fracLog2Cand a b - 1 = ((nlog2 a : ℕ) : ℤ) - ((nlog2 b + 1 : ℕ) : ℤ) := by
      unfold fracLog2Cand
      push_cast
      ring
    rw [he, hzsub]
    rw [div_le_div_iff₀ (by positivity) hb0]
    calc (2 : ℚ) ^ nlog2 a * b ≤ 2 ^ nlog2 a * 2 ^ (nlog2 b + 1) :=
          mul_le_mul_of_nonneg_left (le_of_lt hbuq) (by positivity)
      _ ≤ (a : ℚ) * 2 ^ (nlog2 b + 1) := mul_le_mul_of_nonneg_right halq (by positivity)
  have htest : 2 ^ (fracLog2Cand a b).toNat * b ≤ 2 ^ (-fracLog2Cand a b).toNat * a ↔
      (2 : ℚ) ^ fracLog2Cand a b ≤ (a : ℚ) / b := by
    rw [zpow2_split, div_le_div_iff₀ (by positivity) hb0, mul_comm (a : ℚ)]
    constructor
    · intro h
      exact_mod_cast h
    · intro h
      exact_mod_cast h
  unfold fracLog2
  split_ifs with ht
  · exact ⟨htest.mp ht, hupper⟩
  · have hlt : ¬ (2 : ℚ) ^ fracLog2Cand a b ≤ (a : ℚ) / b := fun hq => ht (htest.mpr hq)
    push_neg at hlt
    refine ⟨hlower, ?_⟩
    rw [sub_add_cancel]
    exact hlt

/-- Uniqueness of the floor-log2 characterisation. -/
theorem floorLog2_unique {q : ℚ} {e1 e2 : ℤ}
    (h1 : (2 : ℚ) ^ e1 ≤ q ∧ q < 2 ^ (e1 + 1))
    (h2 : (2 : ℚ) ^ e2 ≤ q ∧ q < 2 ^ (e2 + 1)) : e1 = e2 := by
  have k1 : e1 < e2 + 1 := by
    by_contra hk
    push_neg at hk
    have hmono : (2 : ℚ) ^ (e2 + 1) ≤ 2 ^ e1 :=
      zpow_le_zpow_right₀ (by norm_num : (1 : ℚ) ≤ 2) hk
    linarith [h1.1, h2.2]
  have k2 : e2 < e1 + 1 := by
    by_contra hk
    push_neg at hk
    have hmono : (2 : ℚ) ^ (e1 + 1) ≤ 2 ^ e2 :=
      zpow_le_zpow_right₀ (by norm_num : (1 : ℚ) ≤ 2) hk
    linarith [h2.1, h1.2]
  omega

theorem toF64_pos {n : Nat} (h : 1 ≤ n) : 1 ≤ toF64 n := by
  by_cases hn : n < 2 ^ 53
  · unfold toF64
    rw [if_pos hn]
    exact h
  · push_neg at hn
    calc 1 ≤ 2 ^ n.log2 := Nat.one_le_two_pow
      _ ≤ toF64 n := toF64_lb hn

/-- The value of the dyadic pair produced by `dyadicFrac`. -/
theorem dyadicFrac_val (m : Nat) (e : ℤ) :
    ((dyadicFrac m e).1 : ℚ) / ((dyadicFrac m e).2 : ℚ) = (m : ℚ) * 2 ^ (e - 52) := by
  unfold dyadicFrac
  push_cast
  rw [zpow2_split (e - 52), show (-(e - 52)).toNat = (52 - e).toNat by omega]
  have h1 : ((2 : ℚ) ^ (52 - e).toNat) ≠ 0 := by positivity
  field_simp
  ring

/-- The scaled round-half-even division computes the significand rounding of
`rnd53` on the fraction `a / b`. -/
theorem rheDiv_scaled (a b : Nat) (hb : 0 < b) (e : ℤ) :
    ((rheDiv (2 ^ (52 - e).toNat * a) (2 ^ (e - 52).toNat * b) : ℕ) : ℚ)
      = ((rhe ((a : ℚ) / (b : ℚ) * 2 ^ ((52 : ℤ) - e)) : ℤ) : ℚ) := by
  have hD : 0 < 2 ^ (e - 52).toNat * b := by positivity
  have h1 := rheDiv_eq_rhe (2 ^ (52 - e).toNat * a) (2 ^ (e - 52).toNat * b) hD
  have h2 : ((2 ^ (52 - e).toNat * a : ℕ) : ℚ) / ((2 ^ (e - 52).toNat * b : ℕ) : ℚ)
      = (a : ℚ) / (b : ℚ) * 2 ^ ((52 : ℤ) - e) := by
    push_cast
    rw [zpow2_split (52 - e), show (-(52 - e)).toNat = (e - 52).toNat by omega]
    have hb0 : (b : ℚ) ≠ 0 := by positivity
    have hp1 : ((2 : ℚ) ^ (e - 52).toNat) ≠ 0 := by positivity
    field_simp
    ring
  rw [h2] at h1
  exact_mod_cast h1

/-- The integer implementation `rnd53Frac` computes exactly the correctly
rounded double `rnd53 (a / b)`. -/
theorem rnd53Frac_val (a b : Nat) (hb : 1 ≤ b) :
    ((rnd53Frac a b).1 : ℚ) * 2 ^ ((rnd53Frac a b).2 - 52) = rnd53 ((a : ℚ) / (b : ℚ)) := by
  have hb0 : (0 : ℚ) < (b : ℚ) := by exact_mod_cast hb
  rcases Nat.eq_zero_or_pos a with ha | ha
  · subst ha
    unfold rnd53Frac rnd53
    simp [rheDiv_zero]
  · have ha0 : (0 : ℚ) < (a : ℚ) := by exact_mod_cast ha
    have hq0 : (0 : ℚ) < (a : ℚ) / b := by positivity
    have hspec1 := fracLog2_spec a b ha hb
    have hnum : 1 ≤ ((a : ℚ) / b).num.natAbs := by
      have hp : 0 < ((a : ℚ) / b).num := Rat.num_pos.mpr hq0
      omega
    have hden : 1 ≤ ((a : ℚ) / b).den := ((a : ℚ) / b).den_pos
    have hqrepr : ((((a : ℚ) / b).num.natAbs : ℕ) : ℚ) / ((((a : ℚ) / b).den : ℕ) : ℚ)
        = (a : ℚ) / b := by
      have hnn : ((((a : ℚ) / b).num.natAbs : ℕ) : ℤ) = ((a : ℚ) / b).num :=
        Int.natAbs_of_nonneg (le_of_lt (Rat.num_pos.mpr hq0))
      conv_rhs => rw [← Rat.num_div_den ((a : ℚ) / b)]
      congr 1
      rw [Int.cast_natAbs]
      exact_mod_cast abs_of_nonneg (le_of_lt (Rat.num_pos.mpr hq0))
    have hspec2 := fracLog2_spec ((a : ℚ) / b).num.natAbs ((a : ℚ) / b).den hnum hden
    rw [hqrepr] at hspec2
    have he : fracLog2 a b = floorLog2 ((a : ℚ) / b) := floorLog2_unique hspec1 hspec2
    unfold rnd53Frac
    dsimp only
    rw [he]
    unfold rnd53
    rw [if_neg (not_le.mpr hq0)]
    congr 1
    exact rheDiv_scaled a b (by omega) (floorLog2 ((a : ℚ) / b))

/-- Bridge between the integer implementation of the percentage and its
IEEE-754 rational model: for a positive total, `usagePercentDeci` is the
round-half-even 1-decimal rendering (on the `×10` scale) of the exact value
of the double `pctF64`. -/
theorem usagePercentDeci_eq (total available : Nat) (h : 0 < total) :
    (usagePercentDeci total available : ℤ) = rhe (pctF64 total available * 10) := by
  have htpos : 1 ≤ toF64 total := toF64_pos (by omega)
  have h1 := rnd53Frac_val (toF64 (wrappingSub total available)) (toF64 total) htpos
  have hf1v := dyadicFrac_val (rnd53Frac (toF64 (wrappingSub total available)) (toF64 total)).1
    (rnd53Frac (toF64 (wrappingSub total available)) (toF64 total)).2
  have hf1den : 1 ≤ (dyadicFrac (rnd53Frac (toF64 (wrappingSub total available)) (toF64 total)).1
      (rnd53Frac (toF64 (wrappingSub total available)) (toF64 total)).2).2 := by
    unfold dyadicFrac
    exact Nat.one_le_two_pow
  have h2 := rnd53Frac_val
    (100 * (dyadicFrac (rnd53Frac (toF64 (wrappingSub total available)) (toF64 total)).1
      (rnd53Frac (toF64 (wrappingSub total available)) (toF64 total)).2).1)
    ((dyadicFrac (rnd53Frac (toF64 (wrappingSub total available)) (toF64 total)).1
      (rnd53Frac (toF64 (wrappingSub total available)) (toF64 total)).2).2)
    hf1den
  have hf1dq : (0 : ℚ) < ((dyadicFrac (rnd53Frac (toF64 (wrappingSub total available))
      (toF64 total)).1 (rnd53Frac (toF64 (wrappingSub total available)) (toF64 total)).2).2 : ℚ) := by
    exact_mod_cast hf1den
  have harg : ((100 * (dyadicFrac (rnd53Frac (toF64 (wrappingSub total available))
        (toF64 total)).1 (rnd53Frac (toF64 (wrappingSub total available)) (toF64 total)).2).1 : ℕ) : ℚ)
      / ((dyadicFrac (rnd53Frac (toF64 (wrappingSub total available)) (toF64 total)).1
        (rnd53Frac (toF64 (wrappingSub total available)) (toF64 total)).2).2 : ℚ)
      = rnd53 ((toF64 (wrappingSub total available) : ℚ) / (toF64 total : ℚ)) * 100 := by
    push_cast
    rw [show ∀ x y : ℚ, (100 : ℚ) * x / y = x / y * 100 from fun x y => by ring]
    rw [hf1v, h1]
  rw [harg] at h2
  unfold usagePercentDeci pctF64 pctF64Frac
  rw [if_pos h]
  dsimp only
  have hpden : 0 < (dyadicFrac
      (rnd53Frac (100 * (dyadicFrac (rnd53Frac (toF64 (wrappingSub total available))
        (toF64 total)).1 (rnd53Frac (toF64 (wrappingSub total available)) (toF64 total)).2).1)
        ((dyadicFrac (rnd53Frac (toF64 (wrappingSub total available)) (toF64 total)).1
          (rnd53Frac (toF64 (wrappingSub total available)) (toF64 total)).2).2)).1
      (rnd53Frac (100 * (dyadicFrac (rnd53Frac (toF64 (wrappingSub total available))
        (toF64 total)).1 (rnd53Frac (toF64 (wrappingSub total available)) (toF64 total)).2).1)
        ((dyadicFrac (rnd53Frac (toF64 (wrappingSub total available)) (toF64 total)).1
          (rnd53Frac (toF64 (wrappingSub total available)) (toF64 total)).2).2)).2).2 := by
    unfold dyadicFrac
    exact Nat.one_le_two_pow
  rw [rheDiv_eq_rhe _ _ hpden]
  congr 1
  push_cast
  rw [show ∀ x y : ℚ, (10 : ℚ) * x / y = x / y * 10 from fun x y => by ring]
  rw [dyadicFrac_val, h2]

/-- Counterexample to C1 as stated: for `total_space = 2000`,
`available_space = 1997` (used space 3), the double value of
`(3.0 / 2000.0) * 100.0` lands strictly below `0.15` after its two `f64`
roundings, so the program prints `0.1% used`, while the exact
`used/total*100` rendered to one decimal place — computed by
`rheDiv (1000 * used) total` and identified with round-half-even of the
exact rational in the third conjunct — is `0.2`. -/
theorem diskPercent_exact_rendering_refuted :
    renderDeci (usagePercentDeci 2000 1997) = "0.1"
  ∧ renderDeci (rheDiv (1000 * wrappingSub 2000 1997) 2000) = "0.2"
  ∧ (rheDiv (1000 * wrappingSub 2000 1997) 2000 : ℤ)
      = rhe ((wrappingSub 2000 1997 : ℚ) / ((2000 : Nat) : ℚ) * 100 * 10)
  ∧ renderDeci (usagePercentDeci 2000 1997)
      ≠ renderDeci (rheDiv (1000 * wrappingSub 2000 1997) 2000) := by
  refine ⟨by decide, by decide, ?_, by decide⟩
  rw [rheDiv_eq_rhe _ _ (by norm_num)]
  congr 1
  push_cast
  ring

/-- C1 (amended): in the disk line printed by `run`, the usage percentage is
the `f64` value `(used as f64 / total as f64) * 100.0` — conversions,
division and multiplication each correctly rounded, as modelled by `pctF64`
— rendered to one decimal place (round-half-even of ten times the exact
value of that double) whenever `total_space > 0`, and is `"0.0"` whenever
`total_space = 0`, whatever `available_space` is; the third conjunct locates
the rendered percentage inside the printed line.  The unamended claim — the
exact `used/total*100` rendered to one decimal place — is refuted at
`total = 2000`, `available = 1997` by
`diskPercent_exact_rendering_refuted`. -/
theorem diskPercent_spec (d : DiskInfo) :
    (d.total_space = 0 →
      renderDeci (usagePercentDeci d.total_space d.available_space) = "0.0")
  ∧ (0 < d.total_space →
      (usagePercentDeci d.total_space d.available_space : ℤ)
        = rhe (pctF64 d.total_space d.available_space * 10))
  ∧ diskLine d = "  " ++ d.name ++ ": "
      ++ format_bytes (wrappingSub d.total_space d.available_space) ++ " / "
      ++ format_bytes d.total_space ++ " ("
      ++ renderDeci (usagePercentDeci d.total_space d.available_space)
      ++ "% used, " ++ format_bytes d.available_space ++ " available) ["
      ++ d.file_system ++ "]" := by
  refine ⟨?_, ?_, rfl⟩
  · intro h
    simp only [usagePercentDeci, h, lt_irrefl, if_false]
    rfl
  · intro h
    exact usagePercentDeci_eq d.total_space d.available_space h

/-- Witness for C1: a zero-total disk with nonzero available space renders
`"0.0"`, and a `16`-total, `15`-available disk hits the positive branch. -/
theorem diskPercent_spec_witness :
    renderDeci (usagePercentDeci (0 : Nat) 5) = "0.0" ∧
    (usagePercentDeci (16 : Nat) 15 : ℤ) = rhe (pctF64 16 15 * 10) :=
  ⟨(diskPercent_spec ⟨"/", "ext4", 0, 5⟩).1 rfl,
   (diskPercent_spec ⟨"/", "ext4", 16, 15⟩).2.1 (by decide)⟩

/-- C6: the Collector never fails: missing OS name or version collapses to
`"N/A"`, a missing physical core count collapses to `0`, and every other
accessor value is passed through unchanged into the snapshot. -/
theorem collectInfo_total (sys : Collab) :
    (sys.name = none → (collectInfo sys).os_name = "N/A")
  ∧ (∀ s, sys.name = some s → (collectInfo sys).os_name = s)
  ∧ (sys.os_version = none → (collectInfo sys).os_version = "N/A")
  ∧ (∀ s, sys.os_version = some s → (collectInfo sys).os_version = s)
  ∧ (sys.physical_core_count = none → (collectInfo sys).cpu_cores = 0)
  ∧ (∀ c, sys.physical_core_count = some c → (collectInfo sys).cpu_cores = c)
  ∧ (collectInfo sys).total_memory = sys.total_memory
  ∧ (collectInfo sys).used_memory = sys.used_memory
  ∧ (collectInfo sys).total_swap = sys.total_swap
  ∧ (collectInfo sys).used_swap = sys.used_swap
  ∧ (collectInfo sys).disks
      = sys.disks.map (fun x => ⟨x.1, x.2.1, x.2.2.1, x.2.2.2⟩)
  ∧ (collectInfo sys).networks
      = sys.networks.map (fun x => ⟨x.1, x.2.1, x.2.2.1, x.2.2.2.1, x.2.2.2.2⟩) := by
  refine ⟨?_, ?_, ?_, ?_, ?_, ?_, rfl, rfl, rfl, rfl, rfl, rfl⟩ <;>
    intros <;> simp [collectInfo, *]

/-- Witness for C6: all accessors unavailable on one host, all available on
another. -/
theorem collectInfo_total_witness :
    (collectInfo ⟨none, none, none, 1, 2, 3, 4, [], []⟩).os_name = "N/A" ∧
    (collectInfo ⟨some "Linux", some "6.1", some 8, 1, 2, 3, 4, [], []⟩).cpu_cores = 8 :=
  ⟨(collectInfo_total ⟨none, none, none, 1, 2, 3, 4, [], []⟩).1 rfl,
   (collectInfo_total ⟨some "Linux", some "6.1", some 8, 1, 2, 3, 4, [], []⟩).2.2.2.2.2.1 8 rfl⟩

theorem stderrLines_map_stdout_append (l : List String) (tr : List Effect) :
    stderrLines (l.map Effect.stdoutLine ++ tr) = stderrLines tr := by
  induction l with
  | nil => rfl
  | cons a t ih => exact ih

/-- C7: the process exits with code 0 exactly when serialization, file
creation and the file write all succeed, and with code 1 otherwise; every
failure prints the single stderr line `"Error: <description>"` for the step
that failed, and the line of a file-creation failure begins
`"Error: Failed to create file:"`. -/
theorem exitCode_spec (sys : Collab) (env : Env) :
    ((main sys env).2 = 0 ∨ (main sys env).2 = 1)
  ∧ ((main sys env).2 = 0 ↔
      (∃ j, env.serializeResult = .ok j) ∧ env.createResult = .ok ()
        ∧ env.writeResult = .ok ())
  ∧ ((main sys env).2 = 0 → stderrLines (main sys env).1 = [])
  ∧ (∀ e, env.serializeResult = .error e →
      stderrLines (main sys env).1 = ["Error: Failed to serialize data to JSON: " ++ e])
  ∧ (∀ j e, env.serializeResult = .ok j → env.createResult = .error e →
      stderrLines (main sys env).1 = ["Error: Failed to create file: " ++ e])
  ∧ (∀ j e, env.serializeResult = .ok j → env.createResult = .ok () →
      env.writeResult = .error e →
      stderrLines (main sys env).1 = ["Error: Failed to write to file: " ++ e]) := by
  rcases env with ⟨s, c, w⟩
  rcases s with e | j
  · refine ⟨Or.inr rfl, ?_, ?_, ?_, ?_, ?_⟩
    · simp [main, run]
    · intro h
      simp [main, run] at h
    · intro e' he
      injection he with h
      subst h
      show stderrLines ((consoleReport (collectInfo sys)).map Effect.stdoutLine
        ++ [Effect.stderrLine ("Error: " ++ AppError.display (.JsonSerialization e))]) = _
      rw [stderrLines_map_stdout_append]
      rfl
    · intro j e' hj
      exact Except.noConfusion hj
    · intro j e' hj
      exact Except.noConfusion hj
  · rcases c with e | u
    · refine ⟨Or.inr rfl, ?_, ?_, ?_, ?_, ?_⟩
      · simp [main, run]
      · intro h
        simp [main, run] at h
      · intro e' he
        exact Except.noConfusion he
      · intro j' e' hj hc
        injection hc with h
        subst h
        show stderrLines ((consoleReport (collectInfo sys)).map Effect.stdoutLine
          ++ [Effect.fileCreate "system_info.json"]
          ++ [Effect.stderrLine ("Error: " ++ AppError.display (.FileCreation e))]) = _
        rw [List.append_assoc, stderrLines_map_stdout_append]
        rfl
      · intro j' e' hj hc
        exact Except.noConfusion hc
    · rcases w with e | u'
      · refine ⟨Or.inr rfl, ?_, ?_, ?_, ?_, ?_⟩
        · simp [main, run]
        · intro h
          simp [main, run] at h
        · intro e' he
          exact Except.noConfusion he
        · intro j' e' hj hc
          exact Except.noConfusion hc
        · intro j' e' hj hc hw
          injection hw with h
          subst h
          show stderrLines ((consoleReport (collectInfo sys)).map Effect.stdoutLine
            ++ [Effect.fileCreate "system_info.json", Effect.fileWriteAll]
            ++ [Effect.stderrLine ("Error: " ++ AppError.display (.FileWrite e))]) = _
          rw [List.append_assoc, stderrLines_map_stdout_append]
          rfl
      · refine ⟨Or.inl rfl, ?_, ?_, ?_, ?_, ?_⟩
        · simp [main, run]
        · intro _
          show stderrLines ((consoleReport (collectInfo sys)).map Effect.stdoutLine
            ++ [Effect.fileCreate "system_info.json", Effect.fileWriteAll,
                Effect.stdoutLine "System information saved to system_info.json"]) = []
          rw [stderrLines_map_stdout_append]
          rfl
        · intro e' he
          exact Except.noConfusion he
        · intro j' e' hj hc
          exact Except.noConfusion hc
        · intro j' e' hj hc hw
          exact Except.noConfusion hw

/-- Witness for C7: a run whose file creation fails exits with code 1 and the
expected stderr line. -/
theorem exitCode_spec_witness :
    stderrLines (main ⟨none, none, none, 0, 0, 0, 0, [], []⟩
        ⟨Except.ok "{}", Except.error "permission denied", Except.ok ()⟩).1
      = ["Error: Failed to create file: " ++ "permission denied"] :=
  (exitCode_spec ⟨none, none, none, 0, 0, 0, 0, [], []⟩
      ⟨Except.ok "{}", Except.error "permission denied", Except.ok ()⟩).2.2.2.2.1
    "{}" "permission denied" rfl rfl

/-- C8: the full human-readable console report is a prefix of the effect
trace of every run — in particular it has been printed before serialization,
file creation or the file write is attempted, so it is complete on every
failing run. -/
theorem report_before_file (sys : Collab) (env : Env) :
    ∃ rest, (run sys env).1
      = (consoleReport (collectInfo sys)).map Effect.stdoutLine ++ rest := by
  rcases env with ⟨s, c, w⟩
  rcases s with e | j
  · exact ⟨[], (List.append_nil _).symm⟩
  · rcases c with e | u
    · exact ⟨_, rfl⟩
    · rcases w with e | u'
      · exact ⟨_, rfl⟩
      · exact ⟨_, rfl⟩

theorem decodeDisk_diskToJson (d : DiskInfo) : decodeDisk (diskToJson d) = some d := rfl

theorem decodeNetwork_networkToJson (n : NetworkInfo) :
    decodeNetwork (networkToJson n) = some n := rfl

theorem decodeList_map_disk (l : List DiskInfo) :
    decodeList decodeDisk (l.map diskToJson) = some l := by
  induction l with
  | nil => rfl
  | cons d t ih =>
    simp only [List.map_cons, decodeList, decodeDisk_diskToJson, ih]

theorem decodeList_map_net (l : List NetworkInfo) :
    decodeList decodeNetwork (l.map networkToJson) = some l := by
  induction l with
  | nil => rfl
  | cons n t ih =>
    simp only [List.map_cons, decodeList, decodeNetwork_networkToJson, ih]

/-- C9: round-trip — deserializing the JSON document written to
`system_info.json` recovers every field of the in-memory snapshot exactly,
numeric counters included; the document is built from the raw values only,
so console byte-formatting never alters the persisted JSON. -/
theorem json_roundtrip (info : SystemInfo) :
    decodeSystemInfo (systemInfoToJson info) = some info := by
  rcases info with ⟨osn, osv, cc, tm, um, ts, us, ds, ns⟩
  simp only [systemInfoToJson, decodeSystemInfo, Json.getField, findField]
  simp [decodeList_map_disk, decodeList_map_net]

/-- C10: the Reporter computes the used space of each disk as the unsigned
subtraction `total_space - available_space` unconditionally (third conjunct:
it is part of the printed line whatever `total_space` is); under the
data-model invariant `available_space ≤ total_space` the subtraction never
underflows and equals the true difference, and whenever `available_space >
total_space` (within the `u64` range) it underflows and wraps to a value
exceeding `total_space`. -/
theorem usedSpace_underflow :
    (∀ (s : SystemInfo),
        (∀ d ∈ s.disks, d.available_space ≤ d.total_space) →
        (∀ d ∈ s.disks, d.total_space < 2 ^ 64) →
        ∀ d ∈ s.disks,
          subUnderflows d.total_space d.available_space = false ∧
          wrappingSub d.total_space d.available_space
            = d.total_space - d.available_space)
  ∧ (∀ d : DiskInfo, d.total_space < d.available_space → d.available_space < 2 ^ 64 →
        subUnderflows d.total_space d.available_space = true ∧
        d.total_space < wrappingSub d.total_space d.available_space)
  ∧ (∀ d : DiskInfo, diskLine d
        = "  " ++ d.name ++ ": "
          ++ format_bytes (wrappingSub d.total_space d.available_space)
          ++ (" / " ++ format_bytes d.total_space ++ " ("
            ++ renderDeci (usagePercentDeci d.total_space d.available_space)
            ++ "% used, " ++ format_bytes d.available_space ++ " available) ["
            ++ d.file_system ++ "]")) := by
  have h64 : (2 : ℕ) ^ 64 = 18446744073709551616 := by norm_num
  refine ⟨?_, ?_, ?_⟩
  · intro s hinv hrange d hd
    have h1 := hinv d hd
    have h2 := hrange d hd
    rw [h64] at h2
    constructor
    · simp only [subUnderflows, decide_eq_false_iff_not]
      omega
    · unfold wrappingSub
      rw [h64]
      omega
  · intro d h1 h2
    rw [h64] at h2
    constructor
    · simp only [subUnderflows, decide_eq_true_eq]
      omega
    · unfold wrappingSub
      rw [h64]
      omega
  · intro d
    simp only [diskLine, string_append_assoc]

/-- Witness for C10: a well-formed disk does not underflow; a disk reporting
more available than total space does. -/
theorem usedSpace_underflow_witness :
    subUnderflows (5 : Nat) 3 = false ∧ subUnderflows (0 : Nat) 1 = true :=
  ⟨(usedSpace_underflow.1 ⟨"h", "v", 0, 0, 0, 0, 0, [⟨"d", "fs", 5, 3⟩], []⟩
      (by decide) (by decide) ⟨"d", "fs", 5, 3⟩ (by decide)).1,
   (usedSpace_underflow.2.1 ⟨"d", "fs", 0, 1⟩ (by decide) (by decide)).1⟩

end RustGetSystemInfo
